import Mathlib

/-!
Verification of the FundVerse backend core
(`src/FundVerse_backend/src/lib.rs`).

The canister state consists of a stable `StableBTreeMap<u64, Idea>` for
ideas, an in-heap `HashMap<u64, Doc>` for documents together with a
`u64` document counter, and an in-heap `Vec<Campaign>` for campaigns.
We embed the two maps as association lists with replace-on-insert
semantics (`mapInsert`), the vector as a `List`, and the canister's
ambient time (`ic_cdk::api::time()`, nanoseconds as a `u64`) as an
explicit argument to every operation that reads it.  `u64` quantities
are carried as `Nat`; the one place the source converts a `u64` to an
`i64` (`as i64`, which wraps for values at or above 2^63) is modelled
explicitly by `u64_as_i64`.  Rust's signed `/` on `i64` truncates
toward zero, which is `Int.tdiv`.
-/

namespace FundVerse

/-- Record type `Idea` from lib.rs. -/
structure Idea where
  title : String
  description : String
  funding_goal : Nat
  current_funding : Nat
  legal_entity : String
  status : Option String
  contact_info : String
  category : String
  business_registration : Nat
  created_at : Nat
  updated_at : Nat
  doc_ids : List Nat
deriving Repr, DecidableEq

/-- Record type `Doc` from lib.rs. -/
structure Doc where
  id : Nat
  idea_id : Nat
  name : String
  content_type : String
  data : List Nat
  uploaded_at : Nat
deriving Repr, DecidableEq

/-- Record type `Campaign` from lib.rs. -/
structure Campaign where
  id : Nat
  idea_id : Nat
  amount_raised : Nat
  goal : Nat
  end_date : Nat
deriving Repr, DecidableEq

/-- Record type `CampaignCard` from lib.rs (a derived, read-only view). -/
structure CampaignCard where
  id : Nat
  idea_id : Nat
  title : String
  category : String
  amount_raised : Nat
  goal : Nat
  end_date : Nat
  days_left : Int
deriving Repr, DecidableEq

/-- Enum `CampaignStatus` from lib.rs. -/
inductive CampaignStatus where
  | Active
  | Ended
deriving Repr, DecidableEq

/-- Record type `CampaignWithIdea` from lib.rs. -/
structure CampaignWithIdea where
  campaign : CampaignCard
  idea : Idea
deriving Repr, DecidableEq

/-- Point lookup in an association list, first matching key wins.
Models `StableBTreeMap::get` / `HashMap::get`. -/
def mapGet (k : Nat) : List (Nat × α) → Option α
  | [] => none
  | p :: rest => if p.1 = k then some p.2 else mapGet k rest

/-- Keyed insert that replaces the value when the key is present and
appends the binding otherwise.  Models `StableBTreeMap::insert` /
`HashMap::insert` as far as lookups, membership and size go. -/
def mapInsert (k : Nat) (v : α) : List (Nat × α) → List (Nat × α)
  | [] => [(k, v)]
  | p :: rest => if p.1 = k then (k, v) :: rest else p :: mapInsert k v rest

/-- Models `contains_key`. -/
def mapContains (k : Nat) (m : List (Nat × α)) : Bool :=
  (mapGet k m).isSome

/-- Canister state: the four `thread_local!` containers of lib.rs
(the declared-but-never-used `IDEA_COUNTER` is omitted). -/
structure State where
  ideas : List (Nat × Idea)
  docs : List (Nat × Doc)
  docCounter : Nat
  campaigns : List Campaign
deriving Repr, DecidableEq

/-- The state before any operation has run: all containers empty. -/
def emptyState : State :=
  { ideas := [], docs := [], docCounter := 0, campaigns := [] }

/-- Rust conversion `x as i64` applied to a `u64` value: values at or
above 2^63 wrap around to negatives. -/
def u64_as_i64 (x : Nat) : Int :=
  if x % 2 ^ 64 < 2 ^ 63 then ((x % 2 ^ 64 : Nat) : Int)
  else ((x % 2 ^ 64 : Nat) : Int) - 2 ^ 64

/-- Helper `now_secs` from lib.rs: `ic_cdk::api::time() / 1_000_000_000`.
The ambient time is passed in as the `u64` nanosecond value. -/
def now_secs (now_ns : Nat) : Nat :=
  (now_ns % 2 ^ 64) / 1000000000

/-- Helper `to_card` from lib.rs.  `days_left` is computed with `i64`
arithmetic: both `end_date` and `now_secs()` are cast with `as i64`, and
Rust `/` on `i64` truncates toward zero (`Int.tdiv`). -/
def to_card (now_ns : Nat) (c : Campaign) (idea : Idea) : CampaignCard :=
  let now : Int := u64_as_i64 (now_secs now_ns)
  let days_left : Int := Int.tdiv (u64_as_i64 c.end_date - now) 86400
  { id := c.id
    idea_id := c.idea_id
    title := idea.title
    category := idea.category
    amount_raised := c.amount_raised
    goal := c.goal
    end_date := c.end_date
    days_left := days_left }

/-- Helper `get_idea` from lib.rs. -/
def get_idea (id : Nat) (s : State) : Option Idea :=
  mapGet id s.ideas

/-- The message passed to `ic_cdk::trap` by `create_idea`. -/
def trapMsg : String :=
  "Invalid input: all fields must be provided and funding_goal must be > 0."

/-- Update `create_idea` from lib.rs.  A trap (fatal abort, no state
change) is modelled as `Except.error` carrying the trap message; success
returns the new id together with the new state.  `created_at` and
`updated_at` take the raw nanosecond time. -/
def create_idea (title description : String) (funding_goal : Nat)
    (legal_entity contact_info category : String)
    (business_registration : Nat) (now_ns : Nat) (s : State) :
    Except String (Nat × State) :=
  if title = "" ∨ description = "" ∨ funding_goal = 0 ∨ legal_entity = ""
      ∨ contact_info = "" ∨ category = "" then
    .error trapMsg
  else
    let now := now_ns % 2 ^ 64
    let idea : Idea :=
      { title := title
        description := description
        funding_goal := funding_goal
        current_funding := 0
        legal_entity := legal_entity
        status := some "pending"
        contact_info := contact_info
        category := category
        business_registration := business_registration
        created_at := now
        updated_at := now
        doc_ids := [] }
    let id := s.ideas.length + 1
    .ok (id, { s with ideas := mapInsert id idea s.ideas })

/-- Update `upload_doc` from lib.rs.  Returns `(none, s)` untouched when
the idea does not exist; otherwise bumps the document counter, stores the
document, and re-fetches the idea to append the new document id to its
`doc_ids` (the defensive `if let Some` of the source is kept as a
`match`). -/
def upload_doc (idea_id : Nat) (name content_type : String)
    (data : List Nat) (uploaded_at : Nat) (s : State) :
    Option Nat × State :=
  if mapContains idea_id s.ideas = false then
    (none, s)
  else
    let doc_id := s.docCounter + 1
    let doc : Doc :=
      { id := doc_id
        idea_id := idea_id
        name := name
        content_type := content_type
        data := data
        uploaded_at := uploaded_at }
    let docs' := mapInsert doc_id doc s.docs
    let ideas' :=
      match mapGet idea_id s.ideas with
      | some idea =>
          mapInsert idea_id
            { idea with doc_ids := idea.doc_ids ++ [doc_id] } s.ideas
      | none => s.ideas
    (some doc_id,
      { s with docs := docs', docCounter := doc_id, ideas := ideas' })

/-- Update `create_campaign` from lib.rs.  Both failures are returned as
typed `Err` values (state unchanged); success pushes the new campaign
onto the vector. -/
def create_campaign (idea_id goal end_date : Nat) (s : State) :
    Except String Nat × State :=
  if goal = 0 then
    (.error "goal must be > 0", s)
  else
    match get_idea idea_id s with
    | none => (.error "idea_id not found", s)
    | some _ =>
        let new_id := s.campaigns.length + 1
        (.ok new_id,
          { s with campaigns := s.campaigns ++
              [{ id := new_id, idea_id := idea_id, amount_raised := 0,
                 goal := goal, end_date := end_date }] })

/-- Query `get_campaign_cards` from lib.rs: join every campaign with its
idea, silently dropping campaigns whose idea does not resolve. -/
def get_campaign_cards (now_ns : Nat) (s : State) : List CampaignCard :=
  s.campaigns.filterMap
    (fun c => (get_idea c.idea_id s).map (fun idea => to_card now_ns c idea))

/-- Query `get_doc` from lib.rs. -/
def get_doc (doc_id : Nat) (s : State) : Option Doc :=
  mapGet doc_id s.docs

/-- Query `get_campaign_cards_by_status` from lib.rs: the same join as
`get_campaign_cards`, then the Active/Ended filter.  The comparisons are
the source's `i64` comparisons. -/
def get_campaign_cards_by_status (status : CampaignStatus) (now_ns : Nat)
    (s : State) : List CampaignCard :=
  let now : Int := u64_as_i64 (now_secs now_ns)
  (s.campaigns.filterMap
    (fun c => (get_idea c.idea_id s).map (fun idea => to_card now_ns c idea))).filter
    (fun card =>
      match status with
      | .Active => decide (card.days_left ≥ 0 ∧ u64_as_i64 card.end_date ≥ now)
      | .Ended => decide (card.days_left < 0 ∨ u64_as_i64 card.end_date < now))

/-- Query `get_campaign_with_idea` from lib.rs. -/
def get_campaign_with_idea (campaign_id : Nat) (now_ns : Nat) (s : State) :
    Option CampaignWithIdea :=
  (s.campaigns.find? (fun c => c.id == campaign_id)).bind
    (fun c => (get_idea c.idea_id s).map
      (fun idea => { campaign := to_card now_ns c idea, idea := idea }))

/-- Query `get_idea_by_id` from lib.rs. -/
def get_idea_by_id (idea_id : Nat) (s : State) : Option Idea :=
  get_idea idea_id s

/-- One public entry point of the canister together with its arguments;
operations that read the ambient time carry it as a `now_ns` field. -/
inductive Op where
  | createIdea (title description : String) (funding_goal : Nat)
      (legal_entity contact_info category : String)
      (business_registration : Nat) (now_ns : Nat)
  | createCampaign (idea_id goal end_date : Nat)
  | uploadDoc (idea_id : Nat) (name content_type : String)
      (data : List Nat) (uploaded_at : Nat)
  | getIdeaById (idea_id : Nat)
  | getDoc (doc_id : Nat)
  | getCampaignCards (now_ns : Nat)
  | getCampaignCardsByStatus (status : CampaignStatus) (now_ns : Nat)
  | getCampaignWithIdea (campaign_id : Nat) (now_ns : Nat)

/-- State transition of one public operation.  A trap in `create_idea`
rolls the call back, so the state is unchanged; the queries never write. -/
def stepOp (s : State) : Op → State
  | .createIdea t d fg le ci cat br now =>
      match create_idea t d fg le ci cat br now s with
      | .ok (_, s') => s'
      | .error _ => s
  | .createCampaign idea_id goal end_date =>
      (create_campaign idea_id goal end_date s).2
  | .uploadDoc idea_id n ct data up =>
      (upload_doc idea_id n ct data up s).2
  | .getIdeaById _ => s
  | .getDoc _ => s
  | .getCampaignCards _ => s
  | .getCampaignCardsByStatus _ _ => s
  | .getCampaignWithIdea _ _ => s

/-- States reachable from the empty state by the public operations. -/
inductive Reachable : State → Prop
  | empty : Reachable emptyState
  | step {s : State} (op : Op) : Reachable s → Reachable (stepOp s op)

/-- Referential integrity of a state: every campaign and every document
references an existing idea, and every id in an idea's `doc_ids` is the
key of a stored document whose `idea_id` points back at that idea. -/
def StoreIntegrity (s : State) : Prop :=
  (∀ c ∈ s.campaigns, mapContains c.idea_id s.ideas = true) ∧
  (∀ p ∈ s.docs, mapContains (p.2).idea_id s.ideas = true) ∧
  (∀ p ∈ s.ideas, ∀ did ∈ (p.2).doc_ids,
    ∃ q ∈ s.docs, q.1 = did ∧ (q.2).idea_id = p.1)

/-- The inductive invariant: key sets are duplicate-free, idea keys lie
in `1..len`, document keys lie in `1..docCounter`, and referential
integrity holds. -/
structure Inv (s : State) : Prop where
  ideasNodup : (s.ideas.map Prod.fst).Nodup
  docsNodup : (s.docs.map Prod.fst).Nodup
  ideaKeys : ∀ p ∈ s.ideas, 1 ≤ p.1 ∧ p.1 ≤ s.ideas.length
  docKeys : ∀ p ∈ s.docs, 1 ≤ p.1 ∧ p.1 ≤ s.docCounter
  integrity : StoreIntegrity s

/-- The list `[a, a+1, ..., a+n-1]`: the shape of a run of consecutively
allocated identifiers. -/
def consecutiveFrom (a : Nat) : Nat → List Nat
  | 0 => []
  | n + 1 => a :: consecutiveFrom (a + 1) n

/-- The ids returned by the successful `create_idea` calls of an
operation sequence run from state `s`, in call order. -/
def ideaIdsOf (s : State) : List Op → List Nat
  | [] => []
  | .createIdea t d fg le ci cat br now :: ops =>
      match create_idea t d fg le ci cat br now s with
      | .ok (id, s') => id :: ideaIdsOf s' ops
      | .error _ => ideaIdsOf s ops
  | op :: ops => ideaIdsOf (stepOp s op) ops

/-- The ids returned by the successful `create_campaign` calls of an
operation sequence run from state `s`, in call order. -/
def campaignIdsOf (s : State) : List Op → List Nat
  | [] => []
  | .createCampaign idea_id goal end_date :: ops =>
      match create_campaign idea_id goal end_date s with
      | (.ok id, s') => id :: campaignIdsOf s' ops
      | (.error _, s') => campaignIdsOf s' ops
  | op :: ops => campaignIdsOf (stepOp s op) ops

/-- The ids returned by the successful `upload_doc` calls of an
operation sequence run from state `s`, in call order. -/
def docIdsOf (s : State) : List Op → List Nat
  | [] => []
  | .uploadDoc idea_id n ct data up :: ops =>
      match upload_doc idea_id n ct data up s with
      | (some id, s') => id :: docIdsOf s' ops
      | (none, s') => docIdsOf s' ops
  | op :: ops => docIdsOf (stepOp s op) ops

/-- A concrete idea record used by witness instances. -/
def sampleIdea : Idea :=
  { title := "t", description := "d", funding_goal := 5,
    current_funding := 0, legal_entity := "l", status := some "pending",
    contact_info := "c", category := "g", business_registration := 1,
    created_at := 0, updated_at := 0, doc_ids := [] }

/-- A concrete campaign with a given end date, used by witness
instances. -/
def sampleCampaign (e : Nat) : Campaign :=
  { id := 1, idea_id := 1, amount_raised := 0, goal := 5, end_date := e }

/-- A concrete one-idea, one-campaign state used by witness instances. -/
def sampleState (e : Nat) : State :=
  { ideas := [(1, sampleIdea)], docs := [], docCounter := 0,
    campaigns := [sampleCampaign e] }

/-! ### Association-list map lemmas -/

theorem mapGet_mapInsert_self (k : Nat) (v : α) (m : List (Nat × α)) :
    mapGet k (mapInsert k v m) = some v := by
  induction m with
  | nil => simp [mapGet, mapInsert]
  | cons p rest ih =>
      by_cases h : p.1 = k
      · simp [mapGet, mapInsert, h]
      · simp [mapGet, mapInsert, h, ih]

theorem mapGet_mapInsert_ne (k k' : Nat) (v : α) (m : List (Nat × α))
    (h : k' ≠ k) : mapGet k (mapInsert k' v m) = mapGet k m := by
  induction m with
  | nil => simp [mapGet, mapInsert, h]
  | cons p rest ih =>
      by_cases hp : p.1 = k'
      · simp [mapGet, mapInsert, hp, h]
      · simp only [mapInsert, hp, if_false]
        by_cases hk : p.1 = k
        · simp [mapGet, hk]
        · simp [mapGet, hk, ih]

theorem mem_mapInsert_elim {p : Nat × α} {k : Nat} {v : α}
    {m : List (Nat × α)} (h : p ∈ mapInsert k v m) : p = (k, v) ∨ p ∈ m := by
  induction m with
  | nil => simpa [mapInsert] using h
  | cons q rest ih =>
      by_cases hq : q.1 = k
      · simp only [mapInsert, hq, if_true] at h
        rcases List.mem_cons.mp h with h | h
        · exact Or.inl h
        · exact Or.inr (List.mem_cons_of_mem _ h)
      · simp only [mapInsert, hq, if_false] at h
        rcases List.mem_cons.mp h with h | h
        · exact Or.inr (h ▸ List.mem_cons_self _ _)
        · rcases ih h with h' | h'
          · exact Or.inl h'
          · exact Or.inr (List.mem_cons_of_mem _ h')

theorem mem_mapInsert_self (k : Nat) (v : α) (m : List (Nat × α)) :
    (k, v) ∈ mapInsert k v m := by
  induction m with
  | nil => simp [mapInsert]
  | cons q rest ih =>
      by_cases hq : q.1 = k
      · simp [mapInsert, hq]
      · simp only [mapInsert, hq, if_false]
        exact List.mem_cons_of_mem _ ih

theorem mem_mapInsert_of_ne {p : Nat × α} {m : List (Nat × α)}
    (hm : p ∈ m) (k : Nat) (v : α) (hne : p.1 ≠ k) :
    p ∈ mapInsert k v m := by
  induction m with
  | nil => cases hm
  | cons q rest ih =>
      by_cases hq : q.1 = k
      · simp only [mapInsert, hq, if_true]
        rcases List.mem_cons.mp hm with h | h
        · exact absurd (h ▸ hq) hne
        · exact List.mem_cons_of_mem _ h
      · simp only [mapInsert, hq, if_false]
        rcases List.mem_cons.mp hm with h | h
        · exact h ▸ List.mem_cons_self _ _
        · exact List.mem_cons_of_mem _ (ih h)

theorem mapGet_eq_none_iff (k : Nat) (m : List (Nat × α)) :
    mapGet k m = none ↔ ∀ p ∈ m, p.1 ≠ k := by
  induction m with
  | nil => simp [mapGet]
  | cons q rest ih =>
      by_cases hq : q.1 = k
      · simp [mapGet, hq]
      · simp [mapGet, hq, ih]

theorem mapGet_some_mem {k : Nat} {v : α} {m : List (Nat × α)}
    (h : mapGet k m = some v) : (k, v) ∈ m := by
  induction m with
  | nil => simp [mapGet] at h
  | cons q rest ih =>
      by_cases hq : q.1 = k
      · simp only [mapGet, hq, if_true, Option.some.injEq] at h
        have : q = (k, v) := by
          cases q; simp_all
        exact this ▸ List.mem_cons_self _ _
      · simp only [mapGet, hq, if_false] at h
        exact List.mem_cons_of_mem _ (ih h)

theorem mapGet_isSome_iff (k : Nat) (m : List (Nat × α)) :
    (mapGet k m).isSome = true ↔ k ∈ m.map Prod.fst := by
  induction m with
  | nil => simp [mapGet]
  | cons q rest ih =>
      by_cases hq : q.1 = k
      · simp [mapGet, hq]
      · simp [mapGet, hq, ih, Ne.symm hq]

theorem keys_mapInsert_of_mem {k : Nat} (v : α) {m : List (Nat × α)}
    (h : k ∈ m.map Prod.fst) :
    (mapInsert k v m).map Prod.fst = m.map Prod.fst := by
  induction m with
  | nil => simp at h
  | cons q rest ih =>
      by_cases hq : q.1 = k
      · simp [mapInsert, hq]
      · have : k ∈ rest.map Prod.fst := by
          rcases List.mem_map.mp h with ⟨p, hp, hpk⟩
          rcases List.mem_cons.mp hp with h' | h'
          · exact absurd (h' ▸ hpk) hq
          · exact List.mem_map.mpr ⟨p, h', hpk⟩
        simp [mapInsert, hq, ih this]

theorem keys_mapInsert_of_not_mem {k : Nat} (v : α) {m : List (Nat × α)}
    (h : k ∉ m.map Prod.fst) :
    (mapInsert k v m).map Prod.fst = m.map Prod.fst ++ [k] := by
  induction m with
  | nil => simp [mapInsert]
  | cons q rest ih =>
      have hq : q.1 ≠ k := by
        intro hk
        exact h (List.mem_map.mpr ⟨q, List.mem_cons_self _ _, hk⟩)
      have hrest : k ∉ rest.map Prod.fst := by
        intro hk
        rcases List.mem_map.mp hk with ⟨p, hp, hpk⟩
        exact h (List.mem_map.mpr ⟨p, List.mem_cons_of_mem _ hp, hpk⟩)
      simp [mapInsert, hq, ih hrest]

theorem length_mapInsert_of_mem {k : Nat} (v : α) {m : List (Nat × α)}
    (h : k ∈ m.map Prod.fst) :
    (mapInsert k v m).length = m.length := by
  have := congrArg List.length (keys_mapInsert_of_mem v h)
  simpa using this

theorem length_mapInsert_of_not_mem {k : Nat} (v : α) {m : List (Nat × α)}
    (h : k ∉ m.map Prod.fst) :
    (mapInsert k v m).length = m.length + 1 := by
  have := congrArg List.length (keys_mapInsert_of_not_mem v h)
  simpa using this

theorem nodup_keys_mapInsert {k : Nat} (v : α) {m : List (Nat × α)}
    (h : (m.map Prod.fst).Nodup) :
    ((mapInsert k v m).map Prod.fst).Nodup := by
  by_cases hk : k ∈ m.map Prod.fst
  · rw [keys_mapInsert_of_mem v hk]; exact h
  · rw [keys_mapInsert_of_not_mem v hk]
    refine List.nodup_append.mpr ⟨h, List.nodup_singleton _, ?_⟩
    intro x hx hx'
    simp only [List.mem_singleton] at hx'
    exact hk (hx' ▸ hx)

theorem mapContains_mapInsert {k k' : Nat} (v : α) {m : List (Nat × α)}
    (h : mapContains k m = true) :
    mapContains k (mapInsert k' v m) = true := by
  by_cases hk : k' = k
  · subst hk
    simp [mapContains, mapGet_mapInsert_self]
  · simpa [mapContains, mapGet_mapInsert_ne k k' v m hk] using h

theorem mapGet_none_of_keys_bounded {m : List (Nat × α)} {n : Nat}
    (h : ∀ p ∈ m, p.1 ≤ n) : mapGet (n + 1) m = none := by
  refine (mapGet_eq_none_iff _ _).mpr ?_
  intro p hp hc
  exact absurd (hc ▸ h p hp) (by omega)

/-! ### Invariant preservation -/

theorem inv_emptyState : Inv emptyState := by
  constructor <;> simp [emptyState, StoreIntegrity]

theorem create_idea_ok_shape {t d le ci cat : String} {fg br now : Nat}
    {s : State} {id : Nat} {s' : State}
    (hok : create_idea t d fg le ci cat br now s = .ok (id, s')) :
    id = s.ideas.length + 1 ∧
      ∃ idea : Idea, idea.doc_ids = [] ∧
        s' = { s with ideas := mapInsert id idea s.ideas } := by
  unfold create_idea at hok
  split at hok
  · exact absurd hok (by simp)
  · simp only [Except.ok.injEq, Prod.mk.injEq] at hok
    obtain ⟨hid, hs'⟩ := hok
    subst hid
    exact ⟨rfl, _, rfl, hs'.symm⟩

theorem idea_key_fresh {s : State} (h : Inv s) :
    (s.ideas.length + 1) ∉ s.ideas.map Prod.fst := by
  intro hmem
  have hsome : (mapGet (s.ideas.length + 1) s.ideas).isSome = true :=
    (mapGet_isSome_iff _ _).mpr hmem
  have hnone : mapGet (s.ideas.length + 1) s.ideas = none :=
    mapGet_none_of_keys_bounded (fun p hp => (h.ideaKeys p hp).2)
  rw [hnone] at hsome
  cases hsome

theorem doc_key_fresh {s : State} (h : Inv s) :
    (s.docCounter + 1) ∉ s.docs.map Prod.fst := by
  intro hmem
  rcases List.mem_map.mp hmem with ⟨p, hp, hpk⟩
  have := (h.docKeys p hp).2
  omega

theorem inv_create_idea {s : State} (h : Inv s)
    (t d le ci cat : String) (fg br now : Nat) :
    Inv (stepOp s (.createIdea t d fg le ci cat br now)) := by
  show Inv (match create_idea t d fg le ci cat br now s with
    | .ok (_, s') => s' | .error _ => s)
  rcases hres : create_idea t d fg le ci cat br now s with e | ⟨id, s'⟩
  · exact h
  · obtain ⟨hid, idea, hdocids, hs'⟩ := create_idea_ok_shape hres
    subst hid hs'
    have hfresh := idea_key_fresh h
    constructor
    · exact nodup_keys_mapInsert _ h.ideasNodup
    · exact h.docsNodup
    · intro p hp
      have hlen := length_mapInsert_of_not_mem (m := s.ideas) idea hfresh
      rcases mem_mapInsert_elim hp with hnew | hold
      · subst hnew
        simp only [hlen]
        omega
      · have := h.ideaKeys p hold
        simp only [hlen]
        omega
    · exact h.docKeys
    · obtain ⟨hcamp, hdocs, hideas⟩ := h.integrity
      refine ⟨?_, ?_, ?_⟩
      · intro c hc
        exact mapContains_mapInsert _ (hcamp c hc)
      · intro p hp
        exact mapContains_mapInsert _ (hdocs p hp)
      · intro p hp did hdid
        rcases mem_mapInsert_elim hp with hnew | hold
        · subst hnew
          simp only [hdocids] at hdid
          cases hdid
        · exact hideas p hold did hdid

theorem inv_upload_doc {s : State} (h : Inv s)
    (idea_id : Nat) (n ct : String) (data : List Nat) (up : Nat) :
    Inv (upload_doc idea_id n ct data up s).2 := by
  unfold upload_doc
  split
  · exact h
  · rename_i hcont
    have hcont' : mapContains idea_id s.ideas = true := by
      revert hcont
      cases mapContains idea_id s.ideas <;> simp
    have hmem : idea_id ∈ s.ideas.map Prod.fst :=
      (mapGet_isSome_iff _ _).mp hcont'
    rcases hmg : mapGet idea_id s.ideas with _ | idea
    · rw [mapGet_eq_none_iff] at hmg
      rcases List.mem_map.mp hmem with ⟨p, hp, hpk⟩
      exact absurd hpk (hmg p hp)
    · simp only [hmg]
      have hideamem : (idea_id, idea) ∈ s.ideas := mapGet_some_mem hmg
      have hdfresh := doc_key_fresh h
      constructor
      · exact nodup_keys_mapInsert _ h.ideasNodup
      · exact nodup_keys_mapInsert _ h.docsNodup
      · intro p hp
        have hlen := length_mapInsert_of_mem (m := s.ideas)
          { idea with doc_ids := idea.doc_ids ++ [s.docCounter + 1] } hmem
        simp only [hlen]
        rcases mem_mapInsert_elim hp with hnew | hold
        · have := h.ideaKeys (idea_id, idea) hideamem
          rw [hnew]
          exact this
        · exact h.ideaKeys p hold
      · intro p hp
        dsimp only at hp ⊢
        rcases mem_mapInsert_elim hp with hnew | hold
        · subst hnew
          omega
        · have := h.docKeys p hold
          omega
      · obtain ⟨hcamp, hdocs, hideas⟩ := h.integrity
        refine ⟨?_, ?_, ?_⟩
        · intro c hc
          exact mapContains_mapInsert _ (hcamp c hc)
        · intro p hp
          rcases mem_mapInsert_elim hp with hnew | hold
          · subst hnew
            simp only [mapContains, mapGet_mapInsert_self, Option.isSome_some]
          · exact mapContains_mapInsert _ (hdocs p hold)
        · intro p hp did hdid
          rcases mem_mapInsert_elim hp with hnew | hold
          · subst hnew
            simp only [List.mem_append, List.mem_singleton] at hdid
            rcases hdid with hdid | hdid
            · obtain ⟨q, hq, hq1, hq2⟩ := hideas (idea_id, idea) hideamem did hdid
              refine ⟨q, mem_mapInsert_of_ne hq _ _ ?_, hq1, hq2⟩
              have := (h.docKeys q hq).2
              omega
            · subst hdid
              exact ⟨_, mem_mapInsert_self _ _ _, rfl, rfl⟩
          · obtain ⟨q, hq, hq1, hq2⟩ := hideas p hold did hdid
            refine ⟨q, mem_mapInsert_of_ne hq _ _ ?_, hq1, hq2⟩
            have := (h.docKeys q hq).2
            omega

theorem inv_create_campaign {s : State} (h : Inv s)
    (idea_id goal end_date : Nat) :
    Inv (create_campaign idea_id goal end_date s).2 := by
  unfold create_campaign
  split
  · exact h
  · rcases hmg : get_idea idea_id s with _ | idea
    · exact h
    · constructor
      · exact h.ideasNodup
      · exact h.docsNodup
      · exact h.ideaKeys
      · exact h.docKeys
      · obtain ⟨hcamp, hdocs, hideas⟩ := h.integrity
        refine ⟨?_, hdocs, hideas⟩
        intro c hc
        simp only [List.mem_append, List.mem_singleton] at hc
        rcases hc with hc | hc
        · exact hcamp c hc
        · subst hc
          simp only [mapContains]
          have : (mapGet idea_id s.ideas).isSome = true := by
            simp [get_idea] at hmg
            simp [hmg]
          exact this

theorem inv_stepOp {s : State} (h : Inv s) (op : Op) : Inv (stepOp s op) := by
  cases op with
  | createIdea t d fg le ci cat br now => exact inv_create_idea h t d le ci cat fg br now
  | createCampaign idea_id goal end_date => exact inv_create_campaign h idea_id goal end_date
  | uploadDoc idea_id n ct data up => exact inv_upload_doc h idea_id n ct data up
  | getIdeaById _ => exact h
  | getDoc _ => exact h
  | getCampaignCards _ => exact h
  | getCampaignCardsByStatus _ _ => exact h
  | getCampaignWithIdea _ _ => exact h

theorem reachable_inv {s : State} (h : Reachable s) : Inv s := by
  induction h with
  | empty => exact inv_emptyState
  | step op _ ih => exact inv_stepOp ih op

/-! ### Shape lemmas for the three mutating operations -/

theorem create_campaign_ok_shape {idea_id goal end_date : Nat} {s : State}
    {id : Nat} {s' : State}
    (hok : create_campaign idea_id goal end_date s = (.ok id, s')) :
    id = s.campaigns.length + 1 ∧
      s'.campaigns = s.campaigns ++
        [{ id := id, idea_id := idea_id, amount_raised := 0,
           goal := goal, end_date := end_date }] ∧
      s'.ideas = s.ideas ∧ s'.docs = s.docs ∧ s'.docCounter = s.docCounter := by
  unfold create_campaign at hok
  split at hok
  · simp at hok
  · split at hok
    · simp at hok
    · simp only [Prod.mk.injEq, Except.ok.injEq] at hok
      obtain ⟨hid, hs'⟩ := hok
      subst hid
      rw [← hs']
      exact ⟨rfl, rfl, rfl, rfl, rfl⟩

theorem create_campaign_error_shape {idea_id goal end_date : Nat} {s : State}
    {msg : String} {s' : State}
    (herr : create_campaign idea_id goal end_date s = (.error msg, s')) :
    s' = s := by
  unfold create_campaign at herr
  split at herr
  · exact (Prod.mk.injEq _ _ _ _ ▸ herr).2.symm ▸ rfl
  · split at herr
    · exact (Prod.mk.injEq _ _ _ _ ▸ herr).2.symm ▸ rfl
    · simp at herr

theorem upload_doc_some_shape {idea_id : Nat} {n ct : String}
    {data : List Nat} {up : Nat} {s : State} {id : Nat} {s' : State}
    (hok : upload_doc idea_id n ct data up s = (some id, s')) :
    id = s.docCounter + 1 ∧ s'.docCounter = s.docCounter + 1 ∧
      s'.campaigns = s.campaigns ∧ s'.ideas.length = s.ideas.length := by
  unfold upload_doc at hok
  split at hok
  · simp at hok
  · rename_i hcont
    have hcont' : mapContains idea_id s.ideas = true := by
      revert hcont
      cases mapContains idea_id s.ideas <;> simp
    have hmem : idea_id ∈ s.ideas.map Prod.fst :=
      (mapGet_isSome_iff _ _).mp hcont'
    simp only [Prod.mk.injEq, Option.some.injEq] at hok
    obtain ⟨hid, hs'⟩ := hok
    subst hid
    rw [← hs']
    refine ⟨rfl, rfl, rfl, ?_⟩
    dsimp only
    rcases hmg : mapGet idea_id s.ideas with _ | idea
    · rfl
    · exact length_mapInsert_of_mem _ hmem

theorem upload_doc_none_shape {idea_id : Nat} {n ct : String}
    {data : List Nat} {up : Nat} {s : State} {s' : State}
    (hn : upload_doc idea_id n ct data up s = (none, s')) : s' = s := by
  unfold upload_doc at hn
  split at hn
  · exact ((Prod.mk.injEq _ _ _ _ ▸ hn).2).symm ▸ rfl
  · simp at hn

theorem create_campaign_snd_ideas (idea_id goal end_date : Nat) (s : State) :
    ((create_campaign idea_id goal end_date s).2).ideas = s.ideas := by
  rcases hres : create_campaign idea_id goal end_date s with ⟨res, s'⟩
  cases res with
  | ok id => exact (create_campaign_ok_shape hres).2.2.1
  | error msg => rw [create_campaign_error_shape hres]

theorem create_campaign_snd_docCounter (idea_id goal end_date : Nat) (s : State) :
    ((create_campaign idea_id goal end_date s).2).docCounter = s.docCounter := by
  rcases hres : create_campaign idea_id goal end_date s with ⟨res, s'⟩
  cases res with
  | ok id => exact (create_campaign_ok_shape hres).2.2.2.2
  | error msg => rw [create_campaign_error_shape hres]

theorem upload_doc_snd_ideas_length (idea_id : Nat) (n ct : String)
    (data : List Nat) (up : Nat) (s : State) :
    ((upload_doc idea_id n ct data up s).2).ideas.length = s.ideas.length := by
  rcases hres : upload_doc idea_id n ct data up s with ⟨res, s'⟩
  cases res with
  | some id => exact (upload_doc_some_shape hres).2.2.2
  | none => rw [upload_doc_none_shape hres]

theorem upload_doc_snd_campaigns (idea_id : Nat) (n ct : String)
    (data : List Nat) (up : Nat) (s : State) :
    ((upload_doc idea_id n ct data up s).2).campaigns = s.campaigns := by
  rcases hres : upload_doc idea_id n ct data up s with ⟨res, s'⟩
  cases res with
  | some id => exact (upload_doc_some_shape hres).2.2.1
  | none => rw [upload_doc_none_shape hres]

theorem stepOp_createIdea_campaigns (s : State)
    (t d le ci cat : String) (fg br now : Nat) :
    (stepOp s (.createIdea t d fg le ci cat br now)).campaigns = s.campaigns := by
  show (match create_idea t d fg le ci cat br now s with
    | .ok (_, s') => s' | .error _ => s).campaigns = _
  rcases hres : create_idea t d fg le ci cat br now s with e | ⟨id, s'⟩
  · rfl
  · obtain ⟨_, idea, _, hs'⟩ := create_idea_ok_shape hres
    rw [hs']

theorem stepOp_createIdea_docCounter (s : State)
    (t d le ci cat : String) (fg br now : Nat) :
    (stepOp s (.createIdea t d fg le ci cat br now)).docCounter = s.docCounter := by
  show (match create_idea t d fg le ci cat br now s with
    | .ok (_, s') => s' | .error _ => s).docCounter = _
  rcases hres : create_idea t d fg le ci cat br now s with e | ⟨id, s'⟩
  · rfl
  · obtain ⟨_, idea, _, hs'⟩ := create_idea_ok_shape hres
    rw [hs']

/-! ### Consecutive allocation of identifiers -/

theorem ideaIdsOf_consecutive (ops : List Op) : ∀ (s : State), Inv s →
    ideaIdsOf s ops =
      consecutiveFrom (s.ideas.length + 1) (ideaIdsOf s ops).length := by
  induction ops with
  | nil => intro s _; simp [ideaIdsOf, consecutiveFrom]
  | cons op ops ih =>
      intro s h
      cases op with
      | createIdea t d fg le ci cat br now =>
          rcases hres : create_idea t d fg le ci cat br now s with e | ⟨id, s'⟩
          · simp only [ideaIdsOf, hres]
            exact ih s h
          · obtain ⟨hid, idea, hdoc, hs'⟩ := create_idea_ok_shape hres
            have hstep : stepOp s (Op.createIdea t d fg le ci cat br now) = s' := by
              show (match create_idea t d fg le ci cat br now s with
                | .ok (_, s') => s' | .error _ => s) = s'
              rw [hres]
            have hinv' : Inv s' :=
              hstep ▸ inv_create_idea h t d le ci cat fg br now
            have hlen : s'.ideas.length = s.ideas.length + 1 := by
              rw [hs']
              dsimp only
              rw [length_mapInsert_of_not_mem]
              rw [hid]
              exact idea_key_fresh h
            simp only [ideaIdsOf, hres, List.length_cons, consecutiveFrom,
              List.cons.injEq]
            refine ⟨hid, ?_⟩
            have htail := ih s' hinv'
            rw [hlen] at htail
            exact htail
      | createCampaign i g e =>
          simp only [ideaIdsOf, stepOp]
          have htail := ih _ (inv_create_campaign h i g e)
          have hl : ((create_campaign i g e s).2).ideas.length
              = s.ideas.length := by rw [create_campaign_snd_ideas]
          rw [hl] at htail
          exact htail
      | uploadDoc i n ct data up =>
          simp only [ideaIdsOf, stepOp]
          have htail := ih _ (inv_upload_doc h i n ct data up)
          have hl := upload_doc_snd_ideas_length i n ct data up s
          rw [hl] at htail
          exact htail
      | getIdeaById i => simpa only [ideaIdsOf, stepOp] using ih s h
      | getDoc i => simpa only [ideaIdsOf, stepOp] using ih s h
      | getCampaignCards now => simpa only [ideaIdsOf, stepOp] using ih s h
      | getCampaignCardsByStatus st now =>
          simpa only [ideaIdsOf, stepOp] using ih s h
      | getCampaignWithIdea i now =>
          simpa only [ideaIdsOf, stepOp] using ih s h

theorem campaignIdsOf_consecutive (ops : List Op) : ∀ (s : State),
    campaignIdsOf s ops =
      consecutiveFrom (s.campaigns.length + 1) (campaignIdsOf s ops).length := by
  induction ops with
  | nil => intro s; simp [campaignIdsOf, consecutiveFrom]
  | cons op ops ih =>
      intro s
      cases op with
      | createCampaign i g e =>
          rcases hres : create_campaign i g e s with ⟨res, s'⟩
          cases res with
          | ok id =>
              obtain ⟨hid, hcamps, _, _, _⟩ := create_campaign_ok_shape hres
              have hlen : s'.campaigns.length = s.campaigns.length + 1 := by
                rw [hcamps]; simp
              simp only [campaignIdsOf, hres, List.length_cons,
                consecutiveFrom, List.cons.injEq]
              refine ⟨hid, ?_⟩
              have htail := ih s'
              rw [hlen] at htail
              exact htail
          | error msg =>
              simp only [campaignIdsOf, hres]
              rw [create_campaign_error_shape hres]
              exact ih s
      | createIdea t d fg le ci cat br now =>
          simp only [campaignIdsOf]
          have htail := ih (stepOp s (Op.createIdea t d fg le ci cat br now))
          rw [stepOp_createIdea_campaigns] at htail
          exact htail
      | uploadDoc i n ct data up =>
          simp only [campaignIdsOf, stepOp]
          have htail := ih (upload_doc i n ct data up s).2
          rw [upload_doc_snd_campaigns] at htail
          exact htail
      | getIdeaById i => simpa only [campaignIdsOf, stepOp] using ih s
      | getDoc i => simpa only [campaignIdsOf, stepOp] using ih s
      | getCampaignCards now => simpa only [campaignIdsOf, stepOp] using ih s
      | getCampaignCardsByStatus st now =>
          simpa only [campaignIdsOf, stepOp] using ih s
      | getCampaignWithIdea i now =>
          simpa only [campaignIdsOf, stepOp] using ih s

theorem docIdsOf_consecutive (ops : List Op) : ∀ (s : State),
    docIdsOf s ops =
      consecutiveFrom (s.docCounter + 1) (docIdsOf s ops).length := by
  induction ops with
  | nil => intro s; simp [docIdsOf, consecutiveFrom]
  | cons op ops ih =>
      intro s
      cases op with
      | uploadDoc i n ct data up =>
          rcases hres : upload_doc i n ct data up s with ⟨res, s'⟩
          cases res with
          | some id =>
              obtain ⟨hid, hctr, _, _⟩ := upload_doc_some_shape hres
              simp only [docIdsOf, hres, List.length_cons, consecutiveFrom,
                List.cons.injEq]
              refine ⟨hid, ?_⟩
              have htail := ih s'
              rw [hctr] at htail
              exact htail
          | none =>
              simp only [docIdsOf, hres]
              rw [upload_doc_none_shape hres]
              exact ih s
      | createIdea t d fg le ci cat br now =>
          simp only [docIdsOf]
          have htail := ih (stepOp s (Op.createIdea t d fg le ci cat br now))
          rw [stepOp_createIdea_docCounter] at htail
          exact htail
      | createCampaign i g e =>
          simp only [docIdsOf, stepOp]
          have htail := ih (create_campaign i g e s).2
          rw [create_campaign_snd_docCounter] at htail
          exact htail
      | getIdeaById i => simpa only [docIdsOf, stepOp] using ih s
      | getDoc i => simpa only [docIdsOf, stepOp] using ih s
      | getCampaignCards now => simpa only [docIdsOf, stepOp] using ih s
      | getCampaignCardsByStatus st now =>
          simpa only [docIdsOf, stepOp] using ih s
      | getCampaignWithIdea i now =>
          simpa only [docIdsOf, stepOp] using ih s

/-! ### Claim theorems -/

/-- C1: In every state reachable from the empty state by the public
operations (`create_idea`, `create_campaign`, `upload_doc` and the
queries), every stored Campaign's `idea_id` and every stored Document's
`idea_id` is the key of an existing Idea in the idea store, and every
identifier in an Idea's `doc_ids` is the id of a stored Document whose
`idea_id` equals that Idea's id. -/
theorem reachable_referential_integrity {s : State} (hs : Reachable s) :
    StoreIntegrity s :=
  (reachable_inv hs).integrity

/-- Witness for the referential-integrity theorem on a concrete
three-operation trace: create an idea, upload a document for it, then
create a campaign for it. -/
theorem reachable_referential_integrity_witness :
    StoreIntegrity (stepOp (stepOp (stepOp emptyState
      (Op.createIdea "t" "d" 5 "l" "c" "g" 1 0))
      (Op.uploadDoc 1 "n" "ct" [] 0))
      (Op.createCampaign 1 10 99)) :=
  reachable_referential_integrity
    (Reachable.step _ (Reachable.step _ (Reachable.step _ Reachable.empty)))

/-- C2: For every input with all five text fields non-empty and
`funding_goal > 0`, `create_idea` succeeds with an identifier not
previously present in the idea store, and `get_idea_by_id` on the new
state returns an Idea whose fields equal the inputs, with
`current_funding = 0`, `status = "pending"` and empty `doc_ids`. -/
theorem create_idea_valid_spec {s : State} (hs : Reachable s)
    (title description : String) (funding_goal : Nat)
    (legal_entity contact_info category : String)
    (business_registration now_ns : Nat)
    (ht : title ≠ "") (hd : description ≠ "") (hg : 0 < funding_goal)
    (hl : legal_entity ≠ "") (hc : contact_info ≠ "") (hcat : category ≠ "") :
    ∃ id s',
      create_idea title description funding_goal legal_entity contact_info
        category business_registration now_ns s = .ok (id, s') ∧
      mapGet id s.ideas = none ∧
      ∃ idea, get_idea_by_id id s' = some idea ∧
        idea.title = title ∧ idea.description = description ∧
        idea.funding_goal = funding_goal ∧ idea.legal_entity = legal_entity ∧
        idea.contact_info = contact_info ∧ idea.category = category ∧
        idea.business_registration = business_registration ∧
        idea.current_funding = 0 ∧ idea.status = some "pending" ∧
        idea.doc_ids = [] := by
  have hinv := reachable_inv hs
  have hcond : ¬(title = "" ∨ description = "" ∨ funding_goal = 0 ∨
      legal_entity = "" ∨ contact_info = "" ∨ category = "") := by
    push_neg
    exact ⟨ht, hd, by omega, hl, hc, hcat⟩
  unfold create_idea
  rw [if_neg hcond]
  refine ⟨_, _, rfl, ?_, ?_⟩
  · exact mapGet_none_of_keys_bounded (fun p hp => (hinv.ideaKeys p hp).2)
  · exact ⟨_, mapGet_mapInsert_self _ _ _,
      rfl, rfl, rfl, rfl, rfl, rfl, rfl, rfl, rfl, rfl⟩

/-- Witness: creating a valid idea in the (reachable) empty state. -/
theorem create_idea_valid_spec_witness :
    ∃ id s',
      create_idea "a" "b" 3 "c" "d" "e" 1 7 emptyState = .ok (id, s') ∧
      mapGet id emptyState.ideas = none ∧
      ∃ idea, get_idea_by_id id s' = some idea ∧
        idea.title = "a" ∧ idea.description = "b" ∧
        idea.funding_goal = 3 ∧ idea.legal_entity = "c" ∧
        idea.contact_info = "d" ∧ idea.category = "e" ∧
        idea.business_registration = 1 ∧
        idea.current_funding = 0 ∧ idea.status = some "pending" ∧
        idea.doc_ids = [] :=
  create_idea_valid_spec Reachable.empty "a" "b" 3 "c" "d" "e" 1 7
    (by decide) (by decide) (by decide) (by decide) (by decide) (by decide)

/-- C3: In every reachable state in which `idea_id` names an existing
Idea, `upload_doc` returns a fresh document id, and afterwards that
Idea's `doc_ids` equals its prior `doc_ids` with exactly that id appended
at the end (prior order preserved, no duplicate introduced). -/
theorem upload_doc_appends {s : State} (hs : Reachable s)
    (idea_id : Nat) (name content_type : String) (data : List Nat)
    (uploaded_at : Nat) (idea : Idea)
    (hidea : mapGet idea_id s.ideas = some idea) :
    ∃ doc_id s',
      upload_doc idea_id name content_type data uploaded_at s
        = (some doc_id, s') ∧
      doc_id ∉ idea.doc_ids ∧
      mapGet idea_id s'.ideas =
        some { idea with doc_ids := idea.doc_ids ++ [doc_id] } := by
  have hinv := reachable_inv hs
  have hcont : mapContains idea_id s.ideas = true := by
    simp [mapContains, hidea]
  unfold upload_doc
  rw [if_neg (by simp [hcont])]
  simp only [hidea]
  refine ⟨_, _, rfl, ?_, ?_⟩
  · intro hmem
    obtain ⟨q, hq, hq1, _⟩ :=
      hinv.integrity.2.2 (idea_id, idea) (mapGet_some_mem hidea) _ hmem
    have := (hinv.docKeys q hq).2
    omega
  · dsimp only
    exact mapGet_mapInsert_self _ _ _

/-- Witness: uploading a document for the one idea of a one-idea
reachable state. -/
theorem upload_doc_appends_witness :
    ∃ doc_id s',
      upload_doc 1 "n" "ct" [7] 9
          (stepOp emptyState (Op.createIdea "t" "d" 5 "l" "c" "g" 1 0))
        = (some doc_id, s') ∧
      doc_id ∉ ([] : List Nat) ∧
      mapGet 1 s'.ideas = some
        { title := "t", description := "d", funding_goal := 5,
          current_funding := 0, legal_entity := "l",
          status := some "pending", contact_info := "c", category := "g",
          business_registration := 1, created_at := 0, updated_at := 0,
          doc_ids := [] ++ [doc_id] } :=
  upload_doc_appends
    (Reachable.step (Op.createIdea "t" "d" 5 "l" "c" "g" 1 0) Reachable.empty)
    1 "n" "ct" [7] 9
    { title := "t", description := "d", funding_goal := 5,
      current_funding := 0, legal_entity := "l", status := some "pending",
      contact_info := "c", category := "g", business_registration := 1,
      created_at := 0, updated_at := 0, doc_ids := [] }
    (by decide)

/-- C4 counterexample: the claim's error strings do not match the code.
At `goal = 0` the code returns the message "goal must be > 0", not
"goal must be positive"; at `goal > 0` with an unknown idea it returns
"idea_id not found", not "idea not found". -/
theorem create_campaign_error_msg_cex :
    (create_campaign 1 0 100 emptyState).1
        ≠ Except.error "goal must be positive" ∧
    (create_campaign 1 5 100 emptyState).1
        ≠ Except.error "idea not found" := by
  refine ⟨fun h => ?_, fun h => ?_⟩
  · have h' : "goal must be > 0" = "goal must be positive" :=
      Except.error.inj h
    exact absurd h' (by decide)
  · have h' : "idea_id not found" = "idea not found" :=
      Except.error.inj h
    exact absurd h' (by decide)

/-- C4 (amended): `create_campaign` checks its preconditions in order
and returns typed recoverable errors: for `goal = 0` it returns the
error "goal must be > 0" regardless of whether `idea_id` exists; for
`goal > 0` and `idea_id` absent it returns the error "idea_id not
found"; in both error cases the whole state, in particular the campaign
store, is unchanged. -/
theorem create_campaign_error_spec (s : State) (idea_id goal end_date : Nat) :
    (goal = 0 →
      create_campaign idea_id goal end_date s
        = (.error "goal must be > 0", s)) ∧
    (0 < goal → get_idea idea_id s = none →
      create_campaign idea_id goal end_date s
        = (.error "idea_id not found", s)) := by
  constructor
  · intro h
    subst h
    unfold create_campaign
    rw [if_pos rfl]
  · intro hg hn
    unfold create_campaign
    rw [if_neg (by omega), hn]

/-- Witness: both error cases of `create_campaign` at concrete inputs. -/
theorem create_campaign_error_spec_witness :
    create_campaign 7 0 100 emptyState = (.error "goal must be > 0", emptyState) ∧
    create_campaign 7 3 100 emptyState = (.error "idea_id not found", emptyState) :=
  ⟨(create_campaign_error_spec emptyState 7 0 100).1 rfl,
   (create_campaign_error_spec emptyState 7 3 100).2 (by decide) rfl⟩

/-- C5: For every `create_idea` input with an empty required text field
or `funding_goal = 0`, the operation traps (a fatal abort, modelled as
the `Except.error` carrying the trap message, not a returned error
value) and the state, in particular the idea store, is unchanged. -/
theorem create_idea_invalid_spec (s : State)
    (title description : String) (funding_goal : Nat)
    (legal_entity contact_info category : String)
    (business_registration now_ns : Nat)
    (h : title = "" ∨ description = "" ∨ funding_goal = 0 ∨
      legal_entity = "" ∨ contact_info = "" ∨ category = "") :
    create_idea title description funding_goal legal_entity contact_info
      category business_registration now_ns s = .error trapMsg ∧
    stepOp s (Op.createIdea title description funding_goal legal_entity
      contact_info category business_registration now_ns) = s := by
  have herr : create_idea title description funding_goal legal_entity
      contact_info category business_registration now_ns s = .error trapMsg := by
    unfold create_idea
    rw [if_pos h]
  refine ⟨herr, ?_⟩
  show (match create_idea title description funding_goal legal_entity
    contact_info category business_registration now_ns s with
    | .ok (_, s') => s' | .error _ => s) = s
  rw [herr]

/-- Witness: an empty title makes `create_idea` trap with no effect. -/
theorem create_idea_invalid_spec_witness :
    create_idea "" "b" 3 "c" "d" "e" 1 7 emptyState = .error trapMsg ∧
    stepOp emptyState (Op.createIdea "" "b" 3 "c" "d" "e" 1 7) = emptyState :=
  create_idea_invalid_spec emptyState "" "b" 3 "c" "d" "e" 1 7 (Or.inl rfl)

/-- C6: For every state in which `idea_id` does not name an existing
Idea, `upload_doc` returns absence (`none`) and the entire state is
returned unchanged: no document is stored, the document counter is not
bumped, and no idea is modified. -/
theorem upload_doc_unknown_idea (s : State) (idea_id : Nat)
    (name content_type : String) (data : List Nat) (uploaded_at : Nat)
    (h : mapGet idea_id s.ideas = none) :
    upload_doc idea_id name content_type data uploaded_at s = (none, s) := by
  unfold upload_doc
  rw [if_pos (show mapContains idea_id s.ideas = false by
    simp [mapContains, h])]

/-- Witness: uploading against the empty state returns absence. -/
theorem upload_doc_unknown_idea_witness :
    upload_doc 3 "n" "ct" [1] 5 emptyState = (none, emptyState) :=
  upload_doc_unknown_idea emptyState 3 "n" "ct" [1] 5 rfl

/-! ### Arithmetic facts about `now_secs`, the `i64` cast and `days_left` -/

theorem now_secs_lt (now_ns : Nat) : now_secs now_ns < 2 ^ 35 := by
  unfold now_secs
  have h : now_ns % 2 ^ 64 < 2 ^ 64 := Nat.mod_lt _ (by norm_num)
  omega

theorem u64_as_i64_of_lt {x : Nat} (h : x < 2 ^ 63) :
    u64_as_i64 x = (x : Int) := by
  unfold u64_as_i64
  have hm : x % 2 ^ 64 = x := Nat.mod_eq_of_lt (by omega)
  rw [hm, if_pos h]

theorem days_left_eq_of_le (now_ns : Nat) (c : Campaign) (idea : Idea)
    (h63 : c.end_date < 2 ^ 63) (hle : now_secs now_ns ≤ c.end_date) :
    (to_card now_ns c idea).days_left
      = (((c.end_date - now_secs now_ns) / 86400 : Nat) : Int) := by
  have hn : now_secs now_ns < 2 ^ 63 :=
    lt_trans (now_secs_lt now_ns) (by norm_num)
  show Int.tdiv (u64_as_i64 c.end_date - u64_as_i64 (now_secs now_ns)) 86400 = _
  rw [u64_as_i64_of_lt h63, u64_as_i64_of_lt hn]
  rw [show ((c.end_date : Int) - (now_secs now_ns : Int))
      = ((c.end_date - now_secs now_ns : Nat) : Int) by
    rw [Int.ofNat_sub hle]]
  exact (Int.ofNat_tdiv _ _).symm

theorem days_left_eq_of_lt (now_ns : Nat) (c : Campaign) (idea : Idea)
    (hlt : c.end_date < now_secs now_ns) :
    (to_card now_ns c idea).days_left
      = -(((now_secs now_ns - c.end_date) / 86400 : Nat) : Int) := by
  have hn : now_secs now_ns < 2 ^ 63 :=
    lt_trans (now_secs_lt now_ns) (by norm_num)
  have h63 : c.end_date < 2 ^ 63 := lt_trans hlt hn
  show Int.tdiv (u64_as_i64 c.end_date - u64_as_i64 (now_secs now_ns)) 86400 = _
  rw [u64_as_i64_of_lt h63, u64_as_i64_of_lt hn]
  rw [show ((c.end_date : Int) - (now_secs now_ns : Int))
      = -((now_secs now_ns - c.end_date : Nat) : Int) by
    rw [Int.ofNat_sub (le_of_lt hlt)]
    ring]
  rw [Int.neg_tdiv]
  exact congrArg Neg.neg (Int.ofNat_tdiv _ _).symm

/-! ### Membership in the status-filtered card list -/

theorem mem_joined_cards (s : State) (now_ns : Nat)
    {c : Campaign} {idea : Idea}
    (hc : c ∈ s.campaigns) (hidea : get_idea c.idea_id s = some idea) :
    to_card now_ns c idea ∈ s.campaigns.filterMap
      (fun c' => (get_idea c'.idea_id s).map
        (fun idea' => to_card now_ns c' idea')) :=
  List.mem_filterMap.mpr ⟨c, hc, by rw [hidea]; rfl⟩

theorem mem_active_iff (s : State) (now_ns : Nat)
    {c : Campaign} {idea : Idea}
    (hc : c ∈ s.campaigns) (hidea : get_idea c.idea_id s = some idea) :
    (to_card now_ns c idea
        ∈ get_campaign_cards_by_status .Active now_ns s) ↔
      ((to_card now_ns c idea).days_left ≥ 0 ∧
        u64_as_i64 c.end_date ≥ u64_as_i64 (now_secs now_ns)) := by
  unfold get_campaign_cards_by_status
  rw [List.mem_filter]
  simp only [decide_eq_true_eq]
  exact ⟨fun h => h.2, fun h => ⟨mem_joined_cards s now_ns hc hidea, h⟩⟩

theorem mem_ended_iff (s : State) (now_ns : Nat)
    {c : Campaign} {idea : Idea}
    (hc : c ∈ s.campaigns) (hidea : get_idea c.idea_id s = some idea) :
    (to_card now_ns c idea
        ∈ get_campaign_cards_by_status .Ended now_ns s) ↔
      ((to_card now_ns c idea).days_left < 0 ∨
        u64_as_i64 c.end_date < u64_as_i64 (now_secs now_ns)) := by
  unfold get_campaign_cards_by_status
  rw [List.mem_filter]
  simp only [decide_eq_true_eq]
  exact ⟨fun h => h.2, fun h => ⟨mem_joined_cards s now_ns hc hidea, h⟩⟩

/-- C7: `get_campaign_cards_by_status` classifies each joined card by
the rule "Active iff `days_left >= 0` and `end_date >= now`, Ended
otherwise" (comparisons in the source's `i64` arithmetic); in
particular, a campaign with `end_date = now + 7 days` appears in the
Active result and not in the Ended result, and a campaign with
`end_date = now - 5 days` the reverse. -/
theorem cards_by_status_spec (s : State) (now_ns : Nat)
    (c : Campaign) (idea : Idea)
    (hc : c ∈ s.campaigns) (hidea : get_idea c.idea_id s = some idea) :
    ((to_card now_ns c idea
        ∈ get_campaign_cards_by_status .Active now_ns s) ↔
      ((to_card now_ns c idea).days_left ≥ 0 ∧
        u64_as_i64 c.end_date ≥ u64_as_i64 (now_secs now_ns))) ∧
    ((to_card now_ns c idea
        ∈ get_campaign_cards_by_status .Ended now_ns s) ↔
      ¬((to_card now_ns c idea).days_left ≥ 0 ∧
        u64_as_i64 c.end_date ≥ u64_as_i64 (now_secs now_ns))) ∧
    (c.end_date = now_secs now_ns + 7 * 86400 →
      to_card now_ns c idea
          ∈ get_campaign_cards_by_status .Active now_ns s ∧
      to_card now_ns c idea
          ∉ get_campaign_cards_by_status .Ended now_ns s) ∧
    (c.end_date + 5 * 86400 = now_secs now_ns →
      to_card now_ns c idea
          ∈ get_campaign_cards_by_status .Ended now_ns s ∧
      to_card now_ns c idea
          ∉ get_campaign_cards_by_status .Active now_ns s) := by
  have hA := mem_active_iff s now_ns hc hidea
  have hE := mem_ended_iff s now_ns hc hidea
  have hn35 := now_secs_lt now_ns
  refine ⟨hA, ?_, ?_, ?_⟩
  · rw [hE]
    constructor
    · intro h
      omega
    · intro h
      omega
  · intro h7
    have h63 : c.end_date < 2 ^ 63 := by
      rw [h7]; norm_num; omega
    have hle : now_secs now_ns ≤ c.end_date := by omega
    have hdl := days_left_eq_of_le now_ns c idea h63 hle
    have hsub : (c.end_date - now_secs now_ns) / 86400 = 7 := by
      rw [h7]; omega
    rw [hsub] at hdl
    have hcast_e := u64_as_i64_of_lt h63
    have hcast_n := u64_as_i64_of_lt
      (show now_secs now_ns < 2 ^ 63 by omega)
    constructor
    · rw [hA, hdl, hcast_e, hcast_n]
      constructor
      · norm_num
      · rw [h7]
        push_cast
        omega
    · rw [hE, hdl, hcast_e, hcast_n]
      rintro (hbad | hbad)
      · norm_num at hbad
      · rw [h7] at hbad
        push_cast at hbad
        omega
  · intro h5
    have hlt : c.end_date < now_secs now_ns := by omega
    have hdl := days_left_eq_of_lt now_ns c idea hlt
    have hsub : (now_secs now_ns - c.end_date) / 86400 = 5 := by omega
    rw [hsub] at hdl
    have h63 : c.end_date < 2 ^ 63 := by omega
    have hcast_e := u64_as_i64_of_lt h63
    have hcast_n := u64_as_i64_of_lt
      (show now_secs now_ns < 2 ^ 63 by omega)
    constructor
    · rw [hE, hdl]
      left
      norm_num
    · rw [hA, hdl]
      intro hcon
      have := hcon.1
      norm_num at this

/-- Witness: in a one-campaign state whose campaign ends seven days
after the sampled time, the card is Active and not Ended. -/
theorem cards_by_status_spec_witness :
    to_card (10 ^ 14) (sampleCampaign 704800) sampleIdea
        ∈ get_campaign_cards_by_status .Active (10 ^ 14)
          (sampleState 704800) ∧
    to_card (10 ^ 14) (sampleCampaign 704800) sampleIdea
        ∉ get_campaign_cards_by_status .Ended (10 ^ 14)
          (sampleState 704800) :=
  (cards_by_status_spec (sampleState 704800) (10 ^ 14)
    (sampleCampaign 704800) sampleIdea (by decide) (by decide)).2.2.1
    (by decide)

/-- C8: `to_card` copies the campaign's `id`, `idea_id`,
`amount_raised`, `goal` and `end_date` and the idea's `title` and
`category` unchanged, and computes `days_left` as
`(end_date - now_seconds) / 86400` in signed (`i64`) arithmetic with
division truncating toward zero, not flooring: for values below 2^63
the quotient is the natural-number quotient of the magnitude with the
sign of the difference, and it is negative for a campaign that ended at
least a day before the sampled time. -/
theorem to_card_spec (now_ns : Nat) (c : Campaign) (idea : Idea) :
    (to_card now_ns c idea).id = c.id ∧
    (to_card now_ns c idea).idea_id = c.idea_id ∧
    (to_card now_ns c idea).amount_raised = c.amount_raised ∧
    (to_card now_ns c idea).goal = c.goal ∧
    (to_card now_ns c idea).end_date = c.end_date ∧
    (to_card now_ns c idea).title = idea.title ∧
    (to_card now_ns c idea).category = idea.category ∧
    (to_card now_ns c idea).days_left
      = Int.tdiv (u64_as_i64 c.end_date - u64_as_i64 (now_secs now_ns))
          86400 ∧
    (c.end_date < 2 ^ 63 → now_secs now_ns ≤ c.end_date →
      (to_card now_ns c idea).days_left
        = (((c.end_date - now_secs now_ns) / 86400 : Nat) : Int)) ∧
    (c.end_date < now_secs now_ns →
      (to_card now_ns c idea).days_left
        = -(((now_secs now_ns - c.end_date) / 86400 : Nat) : Int)) ∧
    (c.end_date + 86400 ≤ now_secs now_ns →
      (to_card now_ns c idea).days_left < 0) := by
  refine ⟨rfl, rfl, rfl, rfl, rfl, rfl, rfl, rfl, ?_, ?_, ?_⟩
  · exact days_left_eq_of_le now_ns c idea
  · exact days_left_eq_of_lt now_ns c idea
  · intro h
    have hlt : c.end_date < now_secs now_ns := by omega
    rw [days_left_eq_of_lt now_ns c idea hlt]
    have h1 : 86400 ≤ now_secs now_ns - c.end_date := by omega
    have h2 : 1 ≤ (now_secs now_ns - c.end_date) / 86400 :=
      (Nat.one_le_div_iff (by norm_num)).mpr h1
    omega

/-- Witness: seven full days left for an end date 604800 seconds ahead
of the sampled time; a negative `days_left` for one 90000 seconds
behind it. -/
theorem to_card_spec_witness :
    (to_card (10 ^ 14) (sampleCampaign 704800) sampleIdea).days_left
      = ((((sampleCampaign 704800).end_date - now_secs (10 ^ 14)) / 86400
          : Nat) : Int) ∧
    (to_card (10 ^ 14) (sampleCampaign 10000) sampleIdea).days_left < 0 :=
  ⟨(to_card_spec (10 ^ 14) (sampleCampaign 704800)
      sampleIdea).2.2.2.2.2.2.2.2.1 (by decide) (by decide),
   (to_card_spec (10 ^ 14) (sampleCampaign 10000)
      sampleIdea).2.2.2.2.2.2.2.2.2.2 (by decide)⟩

/-- C9: Identifier allocation is per-namespace, strictly increasing and
starting at 1: over any operation sequence run from the empty state,
the ids returned by the successful `create_idea` calls are exactly
1, 2, 3, ... in order, and likewise, independently, for the successful
`create_campaign` calls and the successful `upload_doc` calls. -/
theorem allocation_consecutive_from_one (ops : List Op) :
    ideaIdsOf emptyState ops
        = consecutiveFrom 1 (ideaIdsOf emptyState ops).length ∧
    campaignIdsOf emptyState ops
        = consecutiveFrom 1 (campaignIdsOf emptyState ops).length ∧
    docIdsOf emptyState ops
        = consecutiveFrom 1 (docIdsOf emptyState ops).length := by
  refine ⟨?_, ?_, ?_⟩
  · simpa [emptyState] using
      ideaIdsOf_consecutive ops emptyState inv_emptyState
  · simpa [emptyState] using campaignIdsOf_consecutive ops emptyState
  · simpa [emptyState] using docIdsOf_consecutive ops emptyState

/-- C10: a campaign whose `end_date` lies strictly within the day
before the sampled time has `days_left = 0` under truncating division,
yet is classified Ended: it appears in the Ended result and not in the
Active result, because of the `end_date < now` clause.  Hence
`days_left = 0` does not imply Active. -/
theorem days_left_zero_but_ended (s : State) (now_ns : Nat)
    (c : Campaign) (idea : Idea)
    (hc : c ∈ s.campaigns) (hidea : get_idea c.idea_id s = some idea)
    (h1 : c.end_date < now_secs now_ns)
    (h2 : now_secs now_ns < c.end_date + 86400) :
    (to_card now_ns c idea).days_left = 0 ∧
    to_card now_ns c idea
        ∈ get_campaign_cards_by_status .Ended now_ns s ∧
    to_card now_ns c idea
        ∉ get_campaign_cards_by_status .Active now_ns s := by
  have hn35 := now_secs_lt now_ns
  have hdl := days_left_eq_of_lt now_ns c idea h1
  have hsub : (now_secs now_ns - c.end_date) / 86400 = 0 :=
    Nat.div_eq_of_lt (by omega)
  rw [hsub] at hdl
  simp only [Nat.cast_zero, neg_zero] at hdl
  have h63 : c.end_date < 2 ^ 63 := by omega
  have hcast_e := u64_as_i64_of_lt h63
  have hcast_n := u64_as_i64_of_lt
    (show now_secs now_ns < 2 ^ 63 by omega)
  refine ⟨hdl, ?_, ?_⟩
  · rw [mem_ended_iff s now_ns hc hidea, hcast_e, hcast_n]
    right
    exact_mod_cast h1
  · rw [mem_active_iff s now_ns hc hidea, hcast_e, hcast_n]
    intro hcon
    have := hcon.2
    have hlt : (c.end_date : Int) < (now_secs now_ns : Int) := by
      exact_mod_cast h1
    omega

/-- Witness: end date 99999 one second before the sampled time 100000:
`days_left = 0` yet the card is Ended, not Active. -/
theorem days_left_zero_but_ended_witness :
    (to_card (10 ^ 14) (sampleCampaign 99999) sampleIdea).days_left = 0 ∧
    to_card (10 ^ 14) (sampleCampaign 99999) sampleIdea
        ∈ get_campaign_cards_by_status .Ended (10 ^ 14)
          (sampleState 99999) ∧
    to_card (10 ^ 14) (sampleCampaign 99999) sampleIdea
        ∉ get_campaign_cards_by_status .Active (10 ^ 14)
          (sampleState 99999) :=
  days_left_zero_but_ended (sampleState 99999) (10 ^ 14)
    (sampleCampaign 99999) sampleIdea (by decide) (by decide)
    (by decide) (by decide)

end FundVerse
